import Mathlib

/-!
Shallow embedding of bcrc-lua (src/bcrc.cpp), a Lua binding of boost/crc.

The repository source contains the Lua glue (`bcrc_new`, `bcrc_reset`,
`bcrc_process`, `bcrc_checksum`, `bcrc_gc`, `posrelat`, `v_checksubstring`)
and two thin wrapper classes `CrcBasic` / `CrcOptimal` that delegate every
operation to `boost::crc_basic<Bits>` resp. `boost::crc_optimal<...>`.  The
boost engine code itself is not part of the repository, so the CRC register
recurrence is modelled from the specification (spec §4.1-§4.3); the glue
functions are translated directly from src/bcrc.cpp.
-/

/-- Mask a value to the low `w` bits (the register width). -/
def maskW (w : Nat) (x : Nat) : Nat := x % 2 ^ w

/-- Modelled from the spec: the BitReflector of §4.1 (the boost `reflector` is
not in the repository).  `crcReflect n x` reverses the order of the `n`
least-significant bits of `x`; bits above position `n` are ignored and the
result has no bits at or above position `n`. -/
def crcReflect : Nat → Nat → Nat
  | 0, _ => 0
  | n + 1, x => (if x.testBit n then 1 else 0) + 2 * crcReflect n x

/-- The parameter record of spec §3 (`CrcParameters`); the same six values
are the arguments of `bcrc.new` (src/bcrc.cpp lines 224-231). -/
structure CrcParams where
  width : Nat
  poly : Nat
  initial : Nat
  xorOut : Nat
  reflectIn : Bool
  reflectOut : Bool
  deriving DecidableEq

/-- Modelled from the spec: one iteration of the shift-XOR recurrence of
§4.2 (the body of the boost bit loop, absent from the repository): if the
most-significant bit of the register is set, shift left by one and XOR with
the polynomial, else just shift left; the register is masked to `w` bits
after the iteration. -/
def crcStep (w poly : Nat) (r : Nat) : Nat :=
  if r.testBit (w - 1) then maskW w (r * 2 ^^^ poly) else maskW w (r * 2)

/-- Iterated step: `crcSteps w poly n r` runs `n` iterations of `crcStep`. -/
def crcSteps (w poly : Nat) : Nat → Nat → Nat
  | 0, r => r
  | n + 1, r => crcSteps w poly n (crcStep w poly r)

/-- The byte as it enters the register: reflected over 8 bits when
`reflect_input` is set (spec §4.2); an input byte is an octet, so only its
low 8 bits are meaningful. -/
def inByte (p : CrcParams) (b : Nat) : Nat :=
  if p.reflectIn then crcReflect 8 (b % 256) else b % 256

/-- Modelled from the spec: `GenericCrcEngine.process_bytes` for a single
byte (§4.2, realised in boost by `crc_basic<Bits>::process_byte`, absent
from the repository): XOR the (possibly reflected) byte into the
most-significant byte position of the register, then run 8 shift-XOR
iterations. -/
def processByteG (p : CrcParams) (r b : Nat) : Nat :=
  crcSteps p.width p.poly 8 (r ^^^ maskW p.width (inByte p b * 2 ^ (p.width - 8)))

/-- Modelled from the spec: the 256-entry lookup table of §3/§4.3 — entry
`i` is the partial remainder of pushing byte value `i` through the 8
shift-XOR iterations from the most-significant byte position. -/
def crcTable (w poly : Nat) (i : Nat) : Nat :=
  crcSteps w poly 8 (maskW w (i % 256 * 2 ^ (w - 8)))

/-- Modelled from the spec: `TableCrcEngine.process_bytes` for a single
byte (§4.3, realised in boost by `crc_optimal`, absent from the
repository): one table access keyed by the top register byte folded with
the (possibly reflected) input byte, combined with the shifted remainder. -/
def processByteT (p : CrcParams) (r b : Nat) : Nat :=
  maskW p.width (r * 256) ^^^
    crcTable p.width p.poly ((r / 2 ^ (p.width - 8) ^^^ inByte p b) % 256)

/-- Modelled from the spec: `checksum()` of §4.2/§4.3 — reflect the
register over `width` bits when `reflect_output` is set, XOR `xor_out`,
mask to `width` bits.  A pure read of the register. -/
def crcChecksum (p : CrcParams) (r : Nat) : Nat :=
  maskW p.width ((if p.reflectOut then crcReflect p.width r else r) ^^^ p.xorOut)

/-- The two concrete engine classes of src/bcrc.cpp: `CrcBasic` (generic,
bit-serial, built by `bcrc.new`) and `CrcOptimal` (table-driven, built by
the named constructors). -/
inductive EngineKind where
  | basic
  | optimal
  deriving DecidableEq

/-- A CRC engine instance (spec §3): its fixed parameters and the mutable
register accumulator. -/
structure Engine where
  kind : EngineKind
  params : CrcParams
  reg : Nat
  deriving DecidableEq

/-- Construction (spec §3): the register starts at `initial`, masked to
`width` bits. -/
def Engine.make (k : EngineKind) (p : CrcParams) : Engine :=
  ⟨k, p, maskW p.width p.initial⟩

/-- Operation `reset()`: sets the register back to the masked initial value
(src/bcrc.cpp lines 98-101 delegating to the engine; spec §4.2). -/
def Engine.reset (e : Engine) : Engine :=
  { e with reg := maskW e.params.width e.params.initial }

/-- Process one byte, dispatching on the concrete engine class
(src/bcrc.cpp: virtual `process_bytes` of `CrcBasic` / `CrcOptimal`). -/
def Engine.processByte (e : Engine) (b : Nat) : Engine :=
  { e with
    reg := match e.kind with
      | .basic => processByteG e.params e.reg b
      | .optimal => processByteT e.params e.reg b }

/-- Operation `process_bytes(data)`: fold over the bytes in order (spec §4.2: "for
each byte b in data, in order"). -/
def Engine.process (e : Engine) (data : List Nat) : Engine :=
  data.foldl Engine.processByte e

/-- Operation `checksum()`: a pure read of the register (src/bcrc.cpp lines 108-111,
135-138: `checksum() const`). -/
def Engine.checksum (e : Engine) : Nat :=
  crcChecksum e.params e.reg

/-- The single-call form `crc(bytes)` = `reset(); process(bytes);
checksum()` (src/bcrc.cpp `bcrc_call`, lines 371-376). -/
def Engine.compute (e : Engine) (data : List Nat) : Nat :=
  ((e.reset).process data).checksum

/-- Catalog entry for `bcrc.crc16()` = boost `crc_16_type`
(src/bcrc.cpp lines 248-252: `bcrc.new(16, 0x8005, 0, 0, true, true)`). -/
def crc16Params : CrcParams := ⟨16, 0x8005, 0, 0, true, true⟩

/-- Catalog entry for `bcrc.ccitt()` = boost `crc_ccitt_type`
(src/bcrc.cpp lines 254-258: `bcrc.new(16, 0x1021, 0xFFFF, 0, false, false)`). -/
def ccittParams : CrcParams := ⟨16, 0x1021, 0xFFFF, 0, false, false⟩

/-- Catalog entry for `bcrc.xmodem()` = boost `crc_xmodem_type`
(src/bcrc.cpp lines 260-264: `bcrc.new(16, 0x8408, 0, 0, true, true)`). -/
def xmodemParams : CrcParams := ⟨16, 0x8408, 0, 0, true, true⟩

/-- Catalog entry for `bcrc.crc32()` = boost `crc_32_type`
(src/bcrc.cpp lines 266-270:
`bcrc.new(32, 0x04C11DB7, 0xFFFFFFFF, 0xFFFFFFFF, true, true)`). -/
def crc32Params : CrcParams := ⟨32, 0x04C11DB7, 0xFFFFFFFF, 0xFFFFFFFF, true, true⟩

/-- The ASCII bytes of the standard CRC test string "123456789". -/
def testBytes : List Nat := [49, 50, 51, 52, 53, 54, 55, 56, 57]

/-- The named standard constructor `bcrc.crc16()` builds a table-driven
engine with the crc16 catalog parameters (src/bcrc.cpp line 399). -/
def bcrc_crc16 : Engine := Engine.make .optimal crc16Params

/-- The named standard constructor `bcrc.ccitt()` builds a table-driven
engine with the ccitt catalog parameters (src/bcrc.cpp line 400). -/
def bcrc_ccitt : Engine := Engine.make .optimal ccittParams

/-- The named standard constructor `bcrc.xmodem()` builds a table-driven
engine with the xmodem catalog parameters (src/bcrc.cpp line 401). -/
def bcrc_xmodem : Engine := Engine.make .optimal xmodemParams

/-- The named standard constructor `bcrc.crc32()` builds a table-driven
engine with the crc32 catalog parameters (src/bcrc.cpp line 402). -/
def bcrc_crc32 : Engine := Engine.make .optimal crc32Params

/-- The parameter record with its numeric fields pre-masked to `width`
bits, used to state the width-masking property of spec §3/§8. -/
def maskParams (p : CrcParams) : CrcParams :=
  ⟨p.width, maskW p.width p.poly, maskW p.width p.initial,
    maskW p.width p.xorOut, p.reflectIn, p.reflectOut⟩

/-- The error taxonomy of spec §7 that the glue layer of src/bcrc.cpp can
raise (`luaL_argerror` at line 240, `luaL_argcheck` at line 191). -/
inductive BcrcError where
  | UnsupportedWidth
  | DestroyedHandle
  deriving DecidableEq

/-- Constructor `bcrc.new(bits, poly, initial, xor, reflect_input, reflect_remainder)`
(src/bcrc.cpp lines 224-246): a switch on `bits` constructs a `CrcBasic`
engine for widths 8, 16, 24, 32 and raises "unsupported crc bit width"
otherwise.  The parameter values themselves are never validated. -/
def bcrc_new (bits poly initial xorv : Nat) (ri ro : Bool) :
    Except BcrcError Engine :=
  if bits = 8 then .ok (Engine.make .basic ⟨8, poly, initial, xorv, ri, ro⟩)
  else if bits = 16 then .ok (Engine.make .basic ⟨16, poly, initial, xorv, ri, ro⟩)
  else if bits = 24 then .ok (Engine.make .basic ⟨24, poly, initial, xorv, ri, ro⟩)
  else if bits = 32 then .ok (Engine.make .basic ⟨32, poly, initial, xorv, ri, ro⟩)
  else .error .UnsupportedWidth

/-- Function `posrelat` (src/bcrc.cpp lines 161-166): a negative position counts
back from the end (`pos += len + 1`); a position still negative after that
is clamped to 0. -/
def posrelat (pos : Int) (len : Nat) : Int :=
  let q := if pos < 0 then pos + (len : Int) + 1 else pos
  if 0 ≤ q then q else 0

/-- Function `v_checksubstring` (src/bcrc.cpp lines 168-183): resolve the optional
1-based start (default 1) and end (default -1) positions with `posrelat`,
clamp start up to 1 and end down to the buffer length, and return the
selected bytes; an inverted range selects no bytes. -/
def v_checksubstring (s : List Nat) (a b : Option Int) : List Nat :=
  let start := posrelat (a.getD 1) s.length
  let stop := posrelat (b.getD (-1)) s.length
  let start := if start < 1 then 1 else start
  let stop := if (s.length : Int) < stop then (s.length : Int) else stop
  if start ≤ stop then (s.drop (start - 1).toNat).take (stop - start + 1).toNat
  else []

/-- Modelled from the spec for comparison in claim C10: the wording the claim
itself uses for position resolution — "a negative position p resolves to
len + 1 + p" — with no clamping at resolution time. -/
def specResolvePos (pos : Int) (len : Nat) : Int :=
  if pos < 0 then pos + (len : Int) + 1 else pos

/-- Modelled from the spec for comparison in claim C10: start defaults to
1 and end to -1, negative positions resolve by `specResolvePos`, then
start below 1 is clamped to 1 and end above the length is clamped to the
length, and a resolved start exceeding the resolved end selects zero
bytes. -/
def specSubrange (s : List Nat) (a b : Option Int) : List Nat :=
  let start := specResolvePos (a.getD 1) s.length
  let stop := specResolvePos (b.getD (-1)) s.length
  let start := if start < 1 then 1 else start
  let stop := if (s.length : Int) < stop then (s.length : Int) else stop
  if start ≤ stop then (s.drop (start - 1).toNat).take (stop - start + 1).toNat
  else []

/-- A Lua-side handle: `Crc** ud` where `*ud` may have been nulled by
destruction (src/bcrc.cpp lines 187-205).  `none` is a destroyed handle. -/
def Handle := Option Engine

/-- Method `bcrc_reset` (src/bcrc.cpp lines 291-296): `checkudata` raises "bcrc
state has been destroyed" on a nulled handle, otherwise resets the engine
and returns the handle. -/
def bcrc_reset (h : Option Engine) : Except BcrcError (Option Engine) :=
  match h with
  | none => .error .DestroyedHandle
  | some e => .ok (some e.reset)

/-- Method `bcrc_process` (src/bcrc.cpp lines 308-319): `checkudata`, then
process exactly the bytes selected by `v_checksubstring`, returning the
handle. -/
def bcrc_process (h : Option Engine) (s : List Nat) (a b : Option Int) :
    Except BcrcError (Option Engine) :=
  match h with
  | none => .error .DestroyedHandle
  | some e => .ok (some (e.process (v_checksubstring s a b)))

/-- Method `bcrc_checksum` (src/bcrc.cpp lines 351-356): `checkudata`, then push
the checksum of the engine; the engine state is not written. -/
def bcrc_checksum (h : Option Engine) : Except BcrcError (Nat × Option Engine) :=
  match h with
  | none => .error .DestroyedHandle
  | some e => .ok (e.checksum, some e)

/-- Method `bcrc_gc` (src/bcrc.cpp lines 378-384): plain `luaL_checkudata`
without the destroyed-state check, then `delete *ud; *ud = NULL`.
Deleting an already-nulled pointer is a harmless no-op in C++, so
destruction never raises, even on an already-destroyed handle. -/
def bcrc_gc (_h : Option Engine) : Except BcrcError (Option Engine) :=
  .ok none

/-! ### Basic facts about masking, reflection and the shift-XOR step -/

theorem maskW_lt (w x : Nat) : maskW w x < 2 ^ w :=
  Nat.mod_lt _ (Nat.pos_pow_of_pos w (by omega))

theorem maskW_eq_of_lt {w x : Nat} (h : x < 2 ^ w) : maskW w x = x :=
  Nat.mod_eq_of_lt h

theorem maskW_maskW (w x : Nat) : maskW w (maskW w x) = maskW w x :=
  maskW_eq_of_lt (maskW_lt w x)

theorem maskW_xor (w x y : Nat) : maskW w (x ^^^ y) = maskW w x ^^^ maskW w y := by
  apply Nat.eq_of_testBit_eq
  intro i
  simp [maskW, Nat.testBit_mod_two_pow, Nat.testBit_xor, Bool.and_xor_distrib_left]

theorem mul_pow_xor (x y k : Nat) : (x ^^^ y) * 2 ^ k = x * 2 ^ k ^^^ y * 2 ^ k := by
  apply Nat.eq_of_testBit_eq
  intro i
  simp only [← Nat.shiftLeft_eq]
  simp [Nat.testBit_shiftLeft, Nat.testBit_xor, Bool.and_xor_distrib_left]

theorem xor_xor_shuffle (a b c d : Nat) :
    (a ^^^ b) ^^^ (c ^^^ d) = (a ^^^ c) ^^^ (b ^^^ d) := by
  apply Nat.eq_of_testBit_eq
  intro i
  simp only [Nat.testBit_xor]
  cases a.testBit i <;> cases b.testBit i <;> cases c.testBit i <;> cases d.testBit i <;> rfl

theorem crcReflect_lt (n x : Nat) : crcReflect n x < 2 ^ n := by
  induction n generalizing x with
  | zero => simp [crcReflect]
  | succ n ih =>
    have h := ih x
    by_cases hb : x.testBit n <;> simp [crcReflect, hb, pow_succ] <;> omega

theorem crcStep_eq_xor_form (w poly r : Nat) :
    crcStep w poly r =
      maskW w (r * 2) ^^^ (if r.testBit (w - 1) then maskW w poly else 0) := by
  unfold crcStep
  by_cases hb : r.testBit (w - 1) <;> simp [hb, maskW_xor]

theorem crcStep_xor (w poly x y : Nat) :
    crcStep w poly (x ^^^ y) = crcStep w poly x ^^^ crcStep w poly y := by
  rw [crcStep_eq_xor_form, crcStep_eq_xor_form, crcStep_eq_xor_form,
    xor_xor_shuffle, Nat.testBit_xor]
  congr 1
  · rw [show (x ^^^ y) * 2 = x * 2 ^^^ y * 2 by
      simpa using mul_pow_xor x y 1, maskW_xor]
  · cases hx : x.testBit (w - 1) <;> cases hy : y.testBit (w - 1) <;>
      simp [Nat.xor_self]

theorem crcSteps_xor (w poly : Nat) :
    ∀ n x y, crcSteps w poly n (x ^^^ y) =
      crcSteps w poly n x ^^^ crcSteps w poly n y := by
  intro n
  induction n with
  | zero => intro x y; rfl
  | succ n ih => intro x y; simp only [crcSteps, crcStep_xor, ih]

theorem crcStep_lt (w poly r : Nat) : crcStep w poly r < 2 ^ w := by
  unfold crcStep
  by_cases hb : r.testBit (w - 1) <;> simp [hb, maskW_lt]

theorem crcSteps_succ_lt (w poly : Nat) :
    ∀ n r, crcSteps w poly (n + 1) r < 2 ^ w := by
  intro n
  induction n with
  | zero => intro r; exact crcStep_lt w poly r
  | succ n ih => intro r; exact ih _

theorem crcSteps_shift (w poly : Nat) :
    ∀ n low, low * 2 ^ n < 2 ^ w → crcSteps w poly n low = low * 2 ^ n := by
  intro n
  induction n with
  | zero => intro low _; simp [crcSteps]
  | succ n ih =>
    intro low hlow
    have hpow : (2 : Nat) ≤ 2 ^ (n + 1) := by
      calc (2 : Nat) = 2 ^ 1 := rfl
        _ ≤ 2 ^ (n + 1) := Nat.pow_le_pow_right (by omega) (by omega)
    have h2 : low * 2 < 2 ^ w := by
      have : low * 2 ≤ low * 2 ^ (n + 1) := Nat.mul_le_mul_left low hpow
      omega
    have hlow1 : low < 2 ^ (w - 1) := by
      rcases Nat.eq_zero_or_pos w with hw | hw
      · subst hw
        have h1 : low * 2 ^ (n + 1) < 1 := hlow
        have hz : low = 0 := by
          rcases Nat.eq_zero_or_pos low with h | h
          · exact h
          · exfalso
            have := Nat.mul_le_mul h hpow
            omega
        simp [hz]
      · have : 2 ^ w = 2 ^ (w - 1) * 2 := by
          rw [← pow_succ]
          congr 1
          omega
        omega
    have hbit : low.testBit (w - 1) = false := Nat.testBit_lt_two_pow hlow1
    have hstep : crcStep w poly low = low * 2 := by
      unfold crcStep
      rw [hbit]
      simp [maskW_eq_of_lt h2]
    show crcSteps w poly n (crcStep w poly low) = low * 2 ^ (n + 1)
    rw [hstep, ih (low * 2) (by rw [mul_assoc, ← pow_succ']; exact hlow)]
    rw [mul_assoc, ← pow_succ']

/-! ### Table-driven processing agrees with the bit-serial recurrence -/

theorem div_mul_two_pow_xor_mod (r k : Nat) :
    r / 2 ^ k * 2 ^ k ^^^ r % 2 ^ k = r := by
  apply Nat.eq_of_testBit_eq
  intro i
  simp only [← Nat.shiftLeft_eq, ← Nat.shiftRight_eq_div_pow, Nat.testBit_xor,
    Nat.testBit_shiftLeft, Nat.testBit_shiftRight, Nat.testBit_mod_two_pow]
  by_cases h : k ≤ i
  · simp [h, Nat.add_sub_cancel' h, Nat.not_lt.mpr h]
  · simp [h, Nat.lt_of_not_le h]

theorem inByte_lt (p : CrcParams) (b : Nat) : inByte p b < 256 := by
  unfold inByte
  by_cases h : p.reflectIn
  · simpa [h] using crcReflect_lt 8 (b % 256)
  · simp [h]
    omega

theorem processByteT_eq_processByteG (p : CrcParams) (h8 : 8 ≤ p.width)
    (r b : Nat) (hr : r < 2 ^ p.width) :
    processByteT p r b = processByteG p r b := by
  unfold processByteT processByteG crcTable
  set w := p.width with hwdef
  set k := w - 8 with hkdef
  have hw : w = k + 8 := by omega
  have hpow : 2 ^ w = 2 ^ k * 256 := by
    rw [hw, pow_add]
    norm_num
  have hkpos : 0 < 2 ^ k := Nat.pos_pow_of_pos k (by omega)
  set B := inByte p b with hBdef
  have hBlt : B < 256 := inByte_lt p b
  set q := r / 2 ^ k with hqdef
  set m := r % 2 ^ k with hmdef
  have hqlt : q < 256 := by
    rw [hqdef]
    apply Nat.div_lt_of_lt_mul
    rw [← hpow]
    exact hr
  have hmlt : m < 2 ^ k := Nat.mod_lt _ hkpos
  have hqB : q ^^^ B < 256 := by
    have h := Nat.xor_lt_two_pow (n := 8)
      (show q < 2 ^ 8 by norm_num; exact hqlt)
      (show B < 2 ^ 8 by norm_num; exact hBlt)
    norm_num at h
    exact h
  have hmaskT : (q ^^^ B) % 256 = q ^^^ B := Nat.mod_eq_of_lt hqB
  have hmask1 : maskW w (B * 2 ^ k) = B * 2 ^ k := by
    apply maskW_eq_of_lt
    rw [hpow, mul_comm (2 ^ k) 256]
    exact mul_lt_mul_of_pos_right hBlt hkpos
  have hmaskQ : maskW w ((q ^^^ B) * 2 ^ k) = (q ^^^ B) * 2 ^ k := by
    apply maskW_eq_of_lt
    rw [hpow, mul_comm (2 ^ k) 256]
    exact mul_lt_mul_of_pos_right hqB hkpos
  have hsplit : q * 2 ^ k ^^^ m = r := div_mul_two_pow_xor_mod r k
  have hxor : r ^^^ B * 2 ^ k = (q ^^^ B) * 2 ^ k ^^^ m := by
    rw [← hsplit, mul_pow_xor, Nat.xor_assoc, Nat.xor_comm m (B * 2 ^ k),
      ← Nat.xor_assoc]
  have hm256 : m * 256 < 2 ^ w := by
    rw [hpow]
    exact mul_lt_mul_of_pos_right hmlt (by omega)
  have hshift : crcSteps w p.poly 8 m = m * 256 := by
    have h := crcSteps_shift w p.poly 8 m (by norm_num; exact hm256)
    norm_num at h
    exact h
  have hr256 : r * 256 = m * 256 + q * 2 ^ w := by
    have hd := Nat.div_add_mod r (2 ^ k)
    calc r * 256 = (2 ^ k * q + m) * 256 := by rw [hd]
      _ = m * 256 + q * (2 ^ k * 256) := by ring
      _ = m * 256 + q * 2 ^ w := by rw [← hpow]
  have hmask2 : maskW w (r * 256) = m * 256 := by
    unfold maskW
    rw [hr256, Nat.add_mul_mod_self_right]
    exact Nat.mod_eq_of_lt hm256
  rw [hmaskT, hmaskT, hmaskQ, hmask1, hmask2, hxor, crcSteps_xor, hshift,
    Nat.xor_comm]

theorem processByteG_lt (p : CrcParams) (r b : Nat) :
    processByteG p r b < 2 ^ p.width :=
  crcSteps_succ_lt p.width p.poly 7 _

theorem processByteT_lt (p : CrcParams) (r b : Nat) :
    processByteT p r b < 2 ^ p.width := by
  unfold processByteT crcTable
  exact Nat.xor_lt_two_pow (maskW_lt _ _) (crcSteps_succ_lt p.width p.poly 7 _)

/-! ### Structural facts about engines -/

theorem Engine.process_kind (e : Engine) (data : List Nat) :
    (e.process data).kind = e.kind := by
  induction data generalizing e with
  | nil => rfl
  | cons b d ih => exact ih (e.processByte b)

theorem Engine.process_params (e : Engine) (data : List Nat) :
    (e.process data).params = e.params := by
  induction data generalizing e with
  | nil => rfl
  | cons b d ih => exact ih (e.processByte b)

theorem process_optimal_eq_basic_reg (p : CrcParams) (h8 : 8 ≤ p.width) :
    ∀ (data : List Nat) (r : Nat), r < 2 ^ p.width →
      (Engine.process ⟨.optimal, p, r⟩ data).reg =
        (Engine.process ⟨.basic, p, r⟩ data).reg := by
  intro data
  induction data with
  | nil => intro r _; rfl
  | cons b d ih =>
    intro r hr
    show (Engine.process ⟨.optimal, p, processByteT p r b⟩ d).reg =
      (Engine.process ⟨.basic, p, processByteG p r b⟩ d).reg
    rw [processByteT_eq_processByteG p h8 r b hr]
    exact ih (processByteG p r b) (processByteG_lt p r b)

theorem compute_optimal_eq_basic (p : CrcParams) (h8 : 8 ≤ p.width)
    (data : List Nat) :
    (Engine.make .optimal p).compute data = (Engine.make .basic p).compute data := by
  show (Engine.process ⟨.optimal, p, maskW p.width p.initial⟩ data).checksum
    = (Engine.process ⟨.basic, p, maskW p.width p.initial⟩ data).checksum
  unfold Engine.checksum
  rw [Engine.process_params, Engine.process_params,
    process_optimal_eq_basic_reg p h8 data (maskW p.width p.initial) (maskW_lt _ _)]

/-! ### Pre-masked parameters give the same behaviour -/

theorem maskParams_width (p : CrcParams) : (maskParams p).width = p.width := rfl

theorem maskParams_poly (p : CrcParams) :
    (maskParams p).poly = maskW p.width p.poly := rfl

theorem maskParams_initial (p : CrcParams) :
    (maskParams p).initial = maskW p.width p.initial := rfl

theorem maskParams_xorOut (p : CrcParams) :
    (maskParams p).xorOut = maskW p.width p.xorOut := rfl

theorem maskParams_reflectOut (p : CrcParams) :
    (maskParams p).reflectOut = p.reflectOut := rfl

theorem inByte_maskParams (p : CrcParams) (b : Nat) :
    inByte (maskParams p) b = inByte p b := rfl

theorem crcStep_maskPoly (w poly r : Nat) :
    crcStep w (maskW w poly) r = crcStep w poly r := by
  unfold crcStep
  by_cases hb : r.testBit (w - 1) <;> simp [hb, maskW_xor, maskW_maskW]

theorem crcSteps_maskPoly (w poly : Nat) :
    ∀ n r, crcSteps w (maskW w poly) n r = crcSteps w poly n r := by
  intro n
  induction n with
  | zero => intro r; rfl
  | succ n ih => intro r; simp only [crcSteps, crcStep_maskPoly, ih]

theorem processByteG_maskParams (p : CrcParams) (r b : Nat) :
    processByteG (maskParams p) r b = processByteG p r b := by
  simp only [processByteG, maskParams_width, maskParams_poly, inByte_maskParams,
    crcSteps_maskPoly]

theorem processByteT_maskParams (p : CrcParams) (r b : Nat) :
    processByteT (maskParams p) r b = processByteT p r b := by
  simp only [processByteT, crcTable, maskParams_width, maskParams_poly,
    inByte_maskParams, crcSteps_maskPoly]

theorem crcChecksum_maskParams (p : CrcParams) (r : Nat) :
    crcChecksum (maskParams p) r = crcChecksum p r := by
  unfold crcChecksum
  simp only [maskParams_width, maskParams_reflectOut, maskParams_xorOut]
  rw [maskW_xor, maskW_xor, maskW_maskW]

theorem process_maskParams_reg (p : CrcParams) (k : EngineKind) :
    ∀ (data : List Nat) (r : Nat),
      (Engine.process ⟨k, maskParams p, r⟩ data).reg =
        (Engine.process ⟨k, p, r⟩ data).reg := by
  intro data
  induction data with
  | nil => intro r; rfl
  | cons b d ih =>
    intro r
    cases k with
    | basic =>
      show (Engine.process ⟨.basic, maskParams p, processByteG (maskParams p) r b⟩ d).reg =
        (Engine.process ⟨.basic, p, processByteG p r b⟩ d).reg
      rw [processByteG_maskParams]
      exact ih (processByteG p r b)
    | optimal =>
      show (Engine.process ⟨.optimal, maskParams p, processByteT (maskParams p) r b⟩ d).reg =
        (Engine.process ⟨.optimal, p, processByteT p r b⟩ d).reg
      rw [processByteT_maskParams]
      exact ih (processByteT p r b)

theorem compute_maskParams (p : CrcParams) (k : EngineKind) (data : List Nat) :
    (Engine.make k (maskParams p)).compute data = (Engine.make k p).compute data := by
  show (Engine.process ⟨k, maskParams p, maskW p.width (maskW p.width p.initial)⟩ data).checksum
    = (Engine.process ⟨k, p, maskW p.width p.initial⟩ data).checksum
  rw [maskW_maskW]
  unfold Engine.checksum
  rw [Engine.process_params, Engine.process_params, process_maskParams_reg,
    crcChecksum_maskParams]

theorem process_reset_maskParams_reg (p : CrcParams) (k : EngineKind)
    (data : List Nat) :
    ((Engine.make k (maskParams p)).reset.process data).reg
      = ((Engine.make k p).reset.process data).reg := by
  show (Engine.process
      ⟨k, maskParams p, maskW p.width (maskW p.width p.initial)⟩ data).reg
    = (Engine.process ⟨k, p, maskW p.width p.initial⟩ data).reg
  rw [maskW_maskW]
  exact process_maskParams_reg p k data _

/-! ### The glue layer resolves byte ranges as the spec words it -/

theorem v_checksubstring_eq_spec (s : List Nat) (a b : Option Int) :
    v_checksubstring s a b = specSubrange s a b := by
  unfold v_checksubstring specSubrange posrelat specResolvePos
  dsimp only
  set x := a.getD 1 with hx
  set y := b.getD (-1) with hy
  set u := if x < 0 then x + (s.length : Int) + 1 else x with hu
  set v := if y < 0 then y + (s.length : Int) + 1 else y with hv
  by_cases h0u : 0 ≤ u
  · rw [if_pos h0u]
    by_cases h0v : 0 ≤ v
    · rw [if_pos h0v]
    · rw [if_neg h0v,
        if_neg (show ¬(s.length : Int) < 0 by omega),
        if_neg (show ¬(s.length : Int) < v by omega)]
      by_cases hu1 : u < 1
      · rw [if_pos hu1, if_neg (show ¬(1 : Int) ≤ 0 by omega),
          if_neg (show ¬(1 : Int) ≤ v by omega)]
      · rw [if_neg hu1, if_neg (show ¬u ≤ 0 by omega),
          if_neg (show ¬u ≤ v by omega)]
  · rw [if_neg h0u]
    by_cases h0v : 0 ≤ v
    · rw [if_pos h0v, if_pos (show (0 : Int) < 1 by omega),
        if_pos (show u < 1 by omega)]
    · rw [if_neg h0v, if_pos (show (0 : Int) < 1 by omega),
        if_pos (show u < 1 by omega),
        if_neg (show ¬(s.length : Int) < 0 by omega),
        if_neg (show ¬(s.length : Int) < v by omega),
        if_neg (show ¬(1 : Int) ≤ 0 by omega),
        if_neg (show ¬(1 : Int) ≤ v by omega)]

/-! ### The claims -/

/-- C1: for every standard algorithm in the catalog (crc16, ccitt, xmodem,
crc32) and for every input byte sequence, the table-driven engine created
by the named constructor and a generic engine created with that
CrcParameters of that algorithm produce bit-identical checksums after reset;
process; checksum; in particular, a generic engine with width=32,
polynomial=0x04C11DB7, initial=0xFFFFFFFF, xor_out=0xFFFFFFFF,
reflect_input=true, reflect_output=true computed over "123456789" equals
the result of the crc32 standard engine. -/
theorem claim_c1_standard_generic_equivalence :
    (∀ data : List Nat,
        bcrc_crc16.compute data = (Engine.make .basic crc16Params).compute data)
    ∧ (∀ data : List Nat,
        bcrc_ccitt.compute data = (Engine.make .basic ccittParams).compute data)
    ∧ (∀ data : List Nat,
        bcrc_xmodem.compute data = (Engine.make .basic xmodemParams).compute data)
    ∧ (∀ data : List Nat,
        bcrc_crc32.compute data = (Engine.make .basic crc32Params).compute data)
    ∧ (Engine.make .basic crc32Params).compute testBytes
        = bcrc_crc32.compute testBytes := by
  refine ⟨?_, ?_, ?_, ?_, ?_⟩
  · intro data
    exact compute_optimal_eq_basic crc16Params (by decide) data
  · intro data
    exact compute_optimal_eq_basic ccittParams (by decide) data
  · intro data
    exact compute_optimal_eq_basic xmodemParams (by decide) data
  · intro data
    exact compute_optimal_eq_basic crc32Params (by decide) data
  · exact (compute_optimal_eq_basic crc32Params (by decide) testBytes).symm

/-- C2 counterexample: the standard ccitt engine over the ASCII bytes
"123456789" does not yield 0x31C3 (it yields 0x29B1). -/
theorem claim_c2_counterexample : bcrc_ccitt.compute testBytes ≠ 0x31C3 := by
  decide

/-- C2 amended: over the ASCII bytes "123456789", the crc32 standard
engine yields 0xCBF43926 and the crc16 standard engine yields 0xBB3D, as
claimed; the ccitt standard engine (polynomial 0x1021, initial 0xFFFF,
no reflection) yields 0x29B1, not 0x31C3. -/
theorem claim_c2_amended :
    bcrc_crc32.compute testBytes = 0xCBF43926
    ∧ bcrc_crc16.compute testBytes = 0xBB3D
    ∧ bcrc_ccitt.compute testBytes = 0x29B1 := by
  refine ⟨by decide, by decide, by decide⟩

/-- C3 counterexample: the xmodem standard engine (width=16,
polynomial=0x8408, initial=0, xor_out=0, both reflections on) over
"123456789" does not yield 0x31C3. -/
theorem claim_c3_counterexample : bcrc_xmodem.compute testBytes ≠ 0x31C3 := by
  decide

/-- C3 amended: the xmodem standard engine, with the catalog parameters
width=16, polynomial=0x8408, initial=0x0000, xor_out=0x0000,
reflect_input=true, reflect_output=true, yields 0x0C73 over "123456789"
(0x31C3 is the check value of the classical XMODEM algorithm with
polynomial 0x1021 and no reflection, which is not what these parameters
describe). -/
theorem claim_c3_amended : bcrc_xmodem.compute testBytes = 0x0C73 := by
  decide

/-- C4: a generic engine constructed with polynomial, initial, or xor_out
values exceeding `width` bits behaves identically — same checksum for
every input and same register evolution — to one constructed with those
values pre-masked to the low `width` bits; and for each supported width
construction always succeeds, whatever the parameter values, so
out-of-range values are silently truncated, never rejected. -/
theorem claim_c4_width_masking :
    (∀ (p : CrcParams) (data : List Nat),
        (Engine.make .basic p).compute data
          = (Engine.make .basic (maskParams p)).compute data
        ∧ ((Engine.make .basic p).reset.process data).reg
          = ((Engine.make .basic (maskParams p)).reset.process data).reg)
    ∧ (∀ (poly initial xorv : Nat) (ri ro : Bool),
        bcrc_new 8 poly initial xorv ri ro
          = .ok (Engine.make .basic ⟨8, poly, initial, xorv, ri, ro⟩)
        ∧ bcrc_new 16 poly initial xorv ri ro
          = .ok (Engine.make .basic ⟨16, poly, initial, xorv, ri, ro⟩)
        ∧ bcrc_new 24 poly initial xorv ri ro
          = .ok (Engine.make .basic ⟨24, poly, initial, xorv, ri, ro⟩)
        ∧ bcrc_new 32 poly initial xorv ri ro
          = .ok (Engine.make .basic ⟨32, poly, initial, xorv, ri, ro⟩)) := by
  constructor
  · intro p data
    exact ⟨(compute_maskParams p .basic data).symm,
      (process_reset_maskParams_reg p .basic data).symm⟩
  · intro poly initial xorv ri ro
    exact ⟨rfl, rfl, rfl, rfl⟩

/-- C5: for every engine (generic or table-driven) and every byte sequence
split as a concatenation a ++ b, processing a then b then reading the
checksum gives the same value as processing a ++ b in one call from the
same starting state. -/
theorem claim_c5_incremental_eq_monolithic (e : Engine) (a b : List Nat) :
    ((e.process a).process b).checksum = (e.process (a ++ b)).checksum := by
  unfold Engine.process
  rw [List.foldl_append]

/-- C6: checksum() never mutates the engine: on a live handle it returns
the derived value together with the engine state exactly as it was, so any
number of checksum() calls with no intervening process or reset all return
the same value and leave every subsequent result unchanged. -/
theorem claim_c6_checksum_pure (e : Engine) :
    bcrc_checksum (some e) = .ok (e.checksum, some e) := rfl

/-- C7: for every engine and any amount of prior processing, reset()
followed by checksum() gives the same value as the checksum of a freshly
constructed engine of the same parameters that has processed an empty
input; reset sets the register to the initial value masked to width bits,
and on a live handle it has no failure mode. -/
theorem claim_c7_reset_idempotent (e : Engine) (data : List Nat) :
    ((e.process data).reset).checksum
        = ((Engine.make e.kind e.params).process []).checksum
    ∧ (e.reset).reg = maskW e.params.width e.params.initial
    ∧ bcrc_reset (some e) = .ok (some e.reset) := by
  refine ⟨?_, rfl, rfl⟩
  have h1 : (e.process data).reset = Engine.make e.kind e.params := by
    show (⟨(e.process data).kind, (e.process data).params,
      maskW (e.process data).params.width (e.process data).params.initial⟩ : Engine)
        = Engine.make e.kind e.params
    rw [Engine.process_params, Engine.process_kind]
    rfl
  rw [h1]
  rfl

/-- C8: constructing a generic engine fails with UnsupportedWidth exactly
when the requested width is not one of 8, 16, 24, 32; width 12 fails, and
each of the four supported widths succeeds and produces an engine,
whatever the other parameters are. -/
theorem claim_c8_unsupported_width :
    (∀ (w poly initial xorv : Nat) (ri ro : Bool),
        bcrc_new w poly initial xorv ri ro = .error .UnsupportedWidth
          ↔ ¬(w = 8 ∨ w = 16 ∨ w = 24 ∨ w = 32))
    ∧ (∀ (poly initial xorv : Nat) (ri ro : Bool),
        bcrc_new 12 poly initial xorv ri ro = .error .UnsupportedWidth
        ∧ (∃ e1, bcrc_new 8 poly initial xorv ri ro = .ok e1)
        ∧ (∃ e2, bcrc_new 16 poly initial xorv ri ro = .ok e2)
        ∧ (∃ e3, bcrc_new 24 poly initial xorv ri ro = .ok e3)
        ∧ (∃ e4, bcrc_new 32 poly initial xorv ri ro = .ok e4)) := by
  constructor
  · intro w poly initial xorv ri ro
    unfold bcrc_new
    split_ifs with h1 h2 h3 h4 <;> simp_all
  · intro poly initial xorv ri ro
    exact ⟨rfl, ⟨_, rfl⟩, ⟨_, rfl⟩, ⟨_, rfl⟩, ⟨_, rfl⟩⟩

/-- C9 counterexample: destroying an engine handle nulls it, and a second
destruction of the already-destroyed handle succeeds as a silent no-op
(`delete` of a null pointer) instead of failing with DestroyedHandle. -/
theorem claim_c9_counterexample :
    bcrc_gc (some bcrc_crc32) = .ok none
    ∧ bcrc_gc none = .ok none
    ∧ ¬ bcrc_gc none = .error .DestroyedHandle := by
  refine ⟨rfl, rfl, fun h => Except.noConfusion h⟩

/-- C9 amended: after destruction, reset, process and checksum all fail
with DestroyedHandle and none of them touches released state, but a second
destruction does not fail: it is a safe no-op that succeeds, because the
gc handler nulls the pointer and deleting a null pointer does nothing. -/
theorem claim_c9_amended (s : List Nat) (a b : Option Int) :
    bcrc_reset none = .error .DestroyedHandle
    ∧ bcrc_process none s a b = .error .DestroyedHandle
    ∧ bcrc_checksum none = .error .DestroyedHandle
    ∧ bcrc_gc none = .ok none :=
  ⟨rfl, rfl, rfl, rfl⟩

/-- C10: the byte-range selection of the glue layer behaves exactly as the
claim words it — start defaults to 1 and end to -1, a negative position p
resolves to len + 1 + p, the resolved start is clamped up to 1 and the
resolved end down to len, and an inverted range selects zero bytes;
processing zero bytes leaves the engine unchanged, and a process call on a
live handle processes exactly the resolved range. -/
theorem claim_c10_range_resolution :
    (∀ (s : List Nat) (a b : Option Int),
        v_checksubstring s a b = specSubrange s a b)
    ∧ (∀ e : Engine, e.process [] = e)
    ∧ (∀ (e : Engine) (s : List Nat) (a b : Option Int),
        bcrc_process (some e) s a b = .ok (some (e.process (specSubrange s a b)))) := by
  refine ⟨v_checksubstring_eq_spec, fun e => rfl, ?_⟩
  intro e s a b
  show Except.ok (some (e.process (v_checksubstring s a b)))
    = Except.ok (some (e.process (specSubrange s a b)))
  rw [v_checksubstring_eq_spec]
